import Mathlib

/-!
Verification of the Insight-o-pedia supply-chain chatbot core
(Intent Resolution and Insight Assembly Engine) together with the
frontend helpers that talk to it.

The backend core (`app.py`: ParameterExtractor, KeywordIntentClassifier,
NLUIntentClassifier, IntentResolver, PredictorRegistry, InsightAssembler,
ChatOrchestrator) is not part of the shipped sources; only its
documentation is.  Those components are therefore modelled from the
specification, as marked on each definition.  The frontend helpers
(`askModel`, `handleSendMessage`, the dataset store) are embedded
directly from the TypeScript sources.
-/

namespace Insightopedia

/-- Whitespace test used when deciding whether a question is blank
(space, tab, newline, carriage return). -/
def isWs (c : Char) : Bool :=
  c == ' ' || c == '\t' || c == '\n' || c == '\r'

/-- Modelled from the spec: a question is an error condition exactly when
it is empty after trimming, i.e. every character is whitespace. -/
def isBlank (s : List Char) : Bool :=
  s.all isWs

/-- ASCII lower-casing of a single character, written as an explicit table
so that its interaction with digits and punctuation is transparent. -/
def lowerChar (c : Char) : Char :=
  if c = 'A' then 'a' else if c = 'B' then 'b' else if c = 'C' then 'c'
  else if c = 'D' then 'd' else if c = 'E' then 'e' else if c = 'F' then 'f'
  else if c = 'G' then 'g' else if c = 'H' then 'h' else if c = 'I' then 'i'
  else if c = 'J' then 'j' else if c = 'K' then 'k' else if c = 'L' then 'l'
  else if c = 'M' then 'm' else if c = 'N' then 'n' else if c = 'O' then 'o'
  else if c = 'P' then 'p' else if c = 'Q' then 'q' else if c = 'R' then 'r'
  else if c = 'S' then 's' else if c = 'T' then 't' else if c = 'U' then 'u'
  else if c = 'V' then 'v' else if c = 'W' then 'w' else if c = 'X' then 'x'
  else if c = 'Y' then 'y' else if c = 'Z' then 'z' else c

/-- Lower-casing of a character list. -/
def lowerList (s : List Char) : List Char :=
  s.map lowerChar

/-- Leading-match test: `isPref p s` holds when `p` is an initial segment
of `s`. -/
def isPref : List Char → List Char → Bool
  | [], _ => true
  | _ :: _, [] => false
  | p :: ps, s :: ss => p == s && isPref ps ss

/-- Case-insensitive containment: the (already lower-case) pattern occurs
somewhere in the text. -/
def hasSub (pat : List Char) : List Char → Bool
  | [] => pat.isEmpty
  | c :: cs => isPref pat (lowerList (c :: cs)) || hasSub pat cs

/-- Last character of a character list, if any. -/
def lastChar : List Char → Option Char
  | [] => none
  | [c] => some c
  | _ :: rest => lastChar rest

/-- Splits off the maximal run of leading decimal digits. -/
def takeDigits : List Char → List Char × List Char
  | [] => ([], [])
  | c :: cs =>
    if c.isDigit then
      let p := takeDigits cs
      (c :: p.1, p.2)
    else ([], c :: cs)

/-- Base-ten value of a digit string. -/
def digitsVal (ds : List Char) : Nat :=
  ds.foldl (fun a c => 10 * a + (c.toNat - 48)) 0

/-- The word used for the spelled-out percentage form. -/
def pcntWord : List Char := "percent".data

/-- Modelled from the spec: a numeric token counts as a percentage when it
is immediately followed by the percent sign or by the word "percent"
(optionally separated by one space). -/
def pctMark (r : List Char) : Bool :=
  isPref ['%'] r
  || isPref pcntWord (lowerList r)
  || isPref (' ' :: pcntWord) (lowerList r)

/-- Percentage match at the head of the text: a nonempty digit run
followed by a percentage mark yields its numeric value. -/
def headPct (s : List Char) : Option Nat :=
  let p := takeDigits s
  if p.1.isEmpty then none
  else if pctMark p.2 then some (digitsVal p.1) else none

/-- Left-to-right scan returning the first position where the head
matcher fires; this realises the "first match wins" discipline of the
extractor. -/
def scanFirst {α : Type} (f : List Char → Option α) : List Char → Option α
  | [] => none
  | c :: cs =>
    match f (c :: cs) with
    | some v => some v
    | none => scanFirst f cs

/-- Modelled from the spec: first percentage mention of the question. -/
def scanPct (q : List Char) : Option Nat :=
  scanFirst headPct q

/-- Quarter digit: the characters 1..4 denote the four quarters. -/
def qDigit (c : Char) : Option Nat :=
  if c = '1' then some 1
  else if c = '2' then some 2
  else if c = '3' then some 3
  else if c = '4' then some 4
  else none

/-- Quarter token at the head of the text: the letter q (either case)
immediately followed by a digit 1..4. -/
def headQd : List Char → Option Nat
  | c :: d :: _ => if lowerChar c == 'q' then qDigit d else none
  | _ => none

/-- Spelled-out synonym of the first quarter. -/
def synQ1 : List Char := "first quarter".data

/-- Spelled-out synonym of the second quarter. -/
def synQ2 : List Char := "second quarter".data

/-- Spelled-out synonym of the third quarter. -/
def synQ3 : List Char := "third quarter".data

/-- Spelled-out synonym of the fourth quarter. -/
def synQ4 : List Char := "fourth quarter".data

/-- Spelled-out quarter synonym at the head of the text. -/
def headSyn (s : List Char) : Option Nat :=
  if isPref synQ1 (lowerList s) then some 1
  else if isPref synQ2 (lowerList s) then some 2
  else if isPref synQ3 (lowerList s) then some 3
  else if isPref synQ4 (lowerList s) then some 4
  else none

/-- Quarter mention at the head of the text: a `Qn` token, or failing
that a spelled-out synonym. -/
def headQ (s : List Char) : Option Nat :=
  match headQd s with
  | some k => some k
  | none => headSyn s

/-- Modelled from the spec: first quarter mention of the question,
case-insensitive, `Qn` tokens and spelled-out synonyms alike. -/
def scanQuarter (q : List Char) : Option Nat :=
  scanFirst headQ q

/-- Fixed month triple of each quarter. -/
def quarterMonths : Nat → List Nat
  | 1 => [1, 2, 3]
  | 2 => [4, 5, 6]
  | 3 => [7, 8, 9]
  | _ => [10, 11, 12]

/-- The word "day" used by the horizon matcher. -/
def dayWord : List Char := "day".data

/-- Day-count match at the head of the text: a digit run immediately
followed (up to one space) by the word day or days. -/
def headDays (s : List Char) : Option Nat :=
  let p := takeDigits s
  if p.1.isEmpty then none
  else
    let r := match p.2 with | ' ' :: t => t | t => t
    if isPref dayWord (lowerList r) then some (digitsVal p.1) else none

/-- Modelled from the spec: first day-count mention of the question. -/
def scanDays (q : List Char) : Option Nat :=
  scanFirst headDays q

/-- Month names, full and abbreviated, with their month numbers; full
names are listed first so that they win over their own abbreviations. -/
def monthNames : List (List Char × Nat) :=
  [("january".data, 1), ("february".data, 2), ("march".data, 3),
   ("april".data, 4), ("june".data, 6), ("july".data, 7),
   ("august".data, 8), ("september".data, 9), ("october".data, 10),
   ("november".data, 11), ("december".data, 12),
   ("jan".data, 1), ("feb".data, 2), ("mar".data, 3), ("apr".data, 4),
   ("may".data, 5), ("jun".data, 6), ("jul".data, 7), ("aug".data, 8),
   ("sep".data, 9), ("oct".data, 10), ("nov".data, 11), ("dec".data, 12)]

/-- Month-name match at the head of the text. -/
def headMonth (s : List Char) : Option Nat :=
  monthNames.findSome? fun p =>
    if isPref p.1 (lowerList s) then some p.2 else none

/-- Modelled from the spec: first month-name mention of the question. -/
def scanTargetMonth (q : List Char) : Option Nat :=
  scanFirst headMonth q

/-- The word "quarter" used for the bare relative-quarter rule. -/
def quarterWord : List Char := "quarter".data

/-- The word "holiday" mapped to November and December. -/
def holidayWord : List Char := "holiday".data

/-- Modelled from the spec: the calendar quarter after the one holding
the current month (the upcoming quarter for a bare "quarter" mention). -/
def upcomingQuarter (currentMonth : Nat) : Nat :=
  ((currentMonth - 1) / 3 + 1) % 4 + 1

/-- Modelled from the spec: the optional, independently present fields
extracted from a question. -/
structure ParameterSet where
  surge_pct : Option ℚ := none
  days : Option Nat := none
  months : Option (List Nat) := none
  target_month : Option Nat := none
deriving DecidableEq, Repr

/-- Modelled from the spec: `ParameterExtractor.extract` — the pure
text-to-struct parser for percentages, day counts, quarters and months.
A quarter token fixes `months`; otherwise a bare "quarter" maps to the
upcoming quarter relative to the current month, and "holiday" maps to
November and December. -/
def extract (currentMonth : Nat) (q : List Char) : ParameterSet :=
  { surge_pct := (scanPct q).map fun n => (n : ℚ) / 100
    days := scanDays q
    months :=
      match scanQuarter q with
      | some k => some (quarterMonths k)
      | none =>
        if hasSub quarterWord q then
          some (quarterMonths (upcomingQuarter currentMonth))
        else if hasSub holidayWord q then some [11, 12]
        else none
    target_month := scanTargetMonth q }

/-- Modelled from the spec: the closed intent enumeration. -/
inductive Intent where
  | FORECAST
  | INVENTORY
  | SHIPPING
  | SENTIMENT
  | WAREHOUSE
  | GENERAL
deriving DecidableEq, Repr

/-- Modelled from the spec: the static keyword table of the
KeywordIntentClassifier (the trigger keywords the spec lists for each
intent); GENERAL has no keywords. -/
def keywords : Intent → List (List Char)
  | .FORECAST =>
    ["forecast".data, "predict".data, "quarter".data, "trend".data,
     "expect".data, "q1".data, "q2".data, "q3".data, "q4".data]
  | .INVENTORY =>
    ["stock".data, "inventory".data, "surge".data, "shortage".data]
  | .SHIPPING =>
    ["courier".data, "delay".data, "shipping".data, "delivery".data]
  | .SENTIMENT =>
    ["review".data, "rating".data, "sentiment".data, "satisfaction".data]
  | .WAREHOUSE =>
    ["warehouse".data, "processing".data, "efficiency".data]
  | .GENERAL => []

/-- Number of trigger keywords of an intent that occur (case-insensitive
substring match) in the question. -/
def matchCount (i : Intent) (q : List Char) : Nat :=
  (keywords i).countP fun kw => hasSub kw q

/-- Modelled from the spec: the fixed priority order of the keyword
classifier, highest priority first. -/
def intentOrder : List Intent :=
  [.FORECAST, .INVENTORY, .SHIPPING, .SENTIMENT, .WAREHOUSE]

/-- Best intent over a candidate list: an intent with positive match
count beats the running best whenever its count is at least as large, so
that on ties the earlier (higher-priority) candidate survives; with no
positive count anywhere the running best stays GENERAL with count 0. -/
def classifyAux (q : List Char) : List Intent → Intent × Nat
  | [] => (Intent.GENERAL, 0)
  | i :: rest =>
    let b := classifyAux q rest
    let c := matchCount i q
    if 0 < c ∧ b.2 ≤ c then (i, c) else b

/-- Modelled from the spec: `KeywordIntentClassifier.classify` — the
deterministic rule-based mapping from question text to an intent. -/
def keywordClassify (q : List Char) : Intent :=
  (classifyAux q intentOrder).1

/-- Position of an intent in a candidate list (length of the list when
absent). -/
def rankAux : List Intent → Intent → Nat
  | [], _ => 0
  | a :: l, x => if x = a then 0 else rankAux l x + 1

/-- Priority rank of an intent: its position in the fixed priority order
(GENERAL, absent from the order, ranks below all of them). -/
def intentRank (i : Intent) : Nat :=
  rankAux intentOrder i

/-- Modelled from the spec: the three recoverable failure kinds of the
NLU classifier — not configured, bounded wait exceeded, malformed or
out-of-enumeration reply. -/
inductive NLUFailure where
  | unavailable
  | timeout
  | error
deriving DecidableEq, Repr

/-- Modelled from the spec: the NLU collaborator at its interface
boundary — a configuration flag and a classification call that either
returns an intent or fails with one of the three recoverable kinds. -/
structure NLU where
  configured : Bool
  classify : List Char → Except NLUFailure Intent

/-- Modelled from the spec: `IntentResolver.resolve` — try the NLU
classifier when configured, fall back to the keyword classifier on any
failure, never propagating the failure. -/
def resolve (nlu : NLU) (q : List Char) : Intent :=
  if nlu.configured then
    match nlu.classify q with
    | .ok i => i
    | .error _ => keywordClassify q
  else keywordClassify q

/-- Modelled from the spec: the validated argument set a predictor is
invoked with, one constructor per non-GENERAL intent. -/
inductive Invocation where
  | forecast (days : Nat)
  | inventory (surge : ℚ)
  | shipping
  | sentiment
  | warehouse
deriving DecidableEq, Repr

/-- Modelled from the spec: per-predictor validation and defaulting of
the parameter set — FORECAST defaults `days` to 90 when unset, INVENTORY
defaults `surge_pct` to 0 when unset; GENERAL has no predictor. -/
def validateParams : Intent → ParameterSet → Option Invocation
  | .FORECAST, p => some (.forecast (p.days.getD 90))
  | .INVENTORY, p => some (.inventory (p.surge_pct.getD 0))
  | .SHIPPING, _ => some .shipping
  | .SENTIMENT, _ => some .sentiment
  | .WAREHOUSE, _ => some .warehouse
  | .GENERAL, _ => none

/-- Modelled from the spec: one insight — intent tag, human text and
structured data. -/
structure Insight where
  type : Intent
  text : String
  data : List (String × ℚ)
deriving DecidableEq, Repr

/-- Modelled from the spec: the full response contract returned to the
caller. -/
structure ChatResponse where
  question : String
  intent : Intent
  params : ParameterSet
  insights : List Insight
  timestamp : String
deriving DecidableEq, Repr

/-- Modelled from the spec: the only request-level error — an empty or
whitespace-only question. -/
inductive RequestError where
  | invalidQuestion
deriving DecidableEq, Repr

/-- Modelled from the spec: the environment the orchestrator runs in —
the NLU collaborator, per-intent model-artifact availability, whether
insight assembly succeeds, the current month and the clock. -/
structure Env where
  nlu : NLU
  modelLoaded : Intent → Bool
  assemblerOk : Bool
  currentMonth : Nat
  now : String

/-- Modelled from the spec: the static catch-all insight of the GENERAL
intent. -/
def generalHelpInsight : Insight :=
  ⟨.GENERAL,
   "Ask me about forecast, inventory, shipping, sentiment or warehouse.",
   []⟩

/-- Modelled from the spec: the generic apology insight substituted when
insight assembly fails unexpectedly. -/
def apologyInsight : Insight :=
  ⟨.GENERAL, "Apologies - something went wrong while preparing your answer.",
   []⟩

/-- Modelled from the spec: the degraded-response insight naming an
unavailable predictor capability. -/
def unavailableInsight (i : Intent) : Insight :=
  ⟨i, "That capability is unavailable right now: its model is not loaded.",
   []⟩

/-- Modelled from the spec: `InsightAssembler.assemble` — deterministic
templated text from the validated invocation, a headline insight first,
then any threshold-triggered risk insight (inventory risk when the surge
exceeds fifteen percent and the horizon is under thirty days). -/
def assembleFromInv (p : ParameterSet) (inv : Invocation) : List Insight :=
  match inv with
  | .forecast d =>
    [⟨.FORECAST, "Demand forecast computed for the requested horizon.",
      [("days", (d : ℚ))]⟩]
  | .inventory s =>
    ⟨.INVENTORY, "Stock recommendation computed for the requested surge.",
     [("surge_pct", s)]⟩ ::
    (if (15 : ℚ) / 100 < s ∧ p.days.getD 90 < 30 then
      [⟨.INVENTORY, "Inventory risk: large surge over a short horizon.",
        [("surge_pct", s)]⟩]
     else [])
  | .shipping =>
    [⟨.SHIPPING, "Courier performance analysis computed.", []⟩]
  | .sentiment =>
    [⟨.SENTIMENT, "Customer sentiment analysis computed.", []⟩]
  | .warehouse =>
    [⟨.WAREHOUSE, "Warehouse efficiency analysis computed.", []⟩]

/-- Modelled from the spec: the predictor invocation the orchestrator
dispatches — the resolved intent validated against the extracted
parameters. -/
def invocationOf (env : Env) (q : String) : Option Invocation :=
  validateParams (resolve env.nlu q.data) (extract env.currentMonth q.data)

/-- Modelled from the spec: `ChatOrchestrator` — the top-level entry
point behind POST /chat.  Blank questions are rejected before any
classification; any other question flows through extraction, intent
resolution, predictor dispatch and insight assembly, degrading to a
fallback or apology insight when a predictor or the assembler fails, and
always producing a ChatResponse. -/
def chatHandler (env : Env) (q : String) : Except RequestError ChatResponse :=
  if isBlank q.data then .error .invalidQuestion
  else
    let params := extract env.currentMonth q.data
    let intent := resolve env.nlu q.data
    if env.assemblerOk = false then
      .ok ⟨q, .GENERAL, params, [apologyInsight], env.now⟩
    else
      match invocationOf env q with
      | none => .ok ⟨q, .GENERAL, params, [generalHelpInsight], env.now⟩
      | some inv =>
        if env.modelLoaded intent then
          .ok ⟨q, intent, params, assembleFromInv params inv, env.now⟩
        else
          .ok ⟨q, intent, params, [unavailableInsight intent], env.now⟩

/-- One element of the fallback insights list built by the frontend
helper `askModel` (frontend source). -/
structure FallbackInsight where
  text : String
deriving DecidableEq, Repr

/-- The fallback reply object `askModel` builds on failure: an object
with a single `insights` list (frontend source). -/
structure FallbackReply where
  insights : List FallbackInsight
deriving DecidableEq, Repr

/-- Outcome of a browser `fetch` call as seen by the helper: the promise
rejects, or an HTTP response arrives with its ok flag and — when the
body parses as JSON — the parsed body (`none` models a json() failure,
which the surrounding try/catch also intercepts). -/
inductive FetchOutcome (β : Type) where
  | rejected
  | response (ok : Bool) (body : Option β)
deriving DecidableEq, Repr

/-- Result of `askModel`: either the parsed backend body is returned as
is, or a locally built fallback reply. -/
inductive AskModelResult (β : Type) where
  | parsed (b : β)
  | fallback (r : FallbackReply)
deriving DecidableEq, Repr

/-- The frontend helper `askModel` (frontend source): POSTs the question,
returns the parsed JSON body on an ok response, a one-insight fallback
reply on a non-ok status, and a one-insight fallback reply when the fetch
promise rejects or the body fails to parse (both land in the catch). -/
def askModel {β : Type} (f : FetchOutcome β) : AskModelResult β :=
  match f with
  | .rejected => .fallback ⟨[⟨"Could not reach backend."⟩]⟩
  | .response false _ =>
    .fallback ⟨[⟨"Server error. FastAPI might not be running."⟩]⟩
  | .response true none => .fallback ⟨[⟨"Could not reach backend."⟩]⟩
  | .response true (some b) => .parsed b

/-- Chat message author (chatbot page source). -/
inductive Role where
  | user
  | assistant
deriving DecidableEq, Repr

/-- One chat message of the chatbot page (chatbot page source). -/
structure Message where
  id : Nat
  role : Role
  content : String
  timestamp : Nat
deriving DecidableEq, Repr

/-- The component state `handleSendMessage` reads and writes: the message
history, the input field and the loading flag (chatbot page source). -/
structure ChatState where
  messages : List Message
  input : String
  loading : Bool
deriving DecidableEq, Repr

/-- The assistant reply text `handleSendMessage` computes from the fetch
outcome (chatbot page source): any fetch rejection, non-ok status or
JSON failure yields the error text; otherwise the first insight text,
with a fallback when the list is empty or the text is the empty string
(the JavaScript or-chain treats the empty string as missing). -/
def replyOf (o : FetchOutcome (List String)) : String :=
  match o with
  | .rejected => "Server error. Please try again."
  | .response false _ => "Server error. Please try again."
  | .response true none => "Server error. Please try again."
  | .response true (some texts) =>
    match texts.head? with
    | some t => if t = "" then "No insights received." else t
    | none => "No insights received."

/-- The chatbot page handler `handleSendMessage` (chatbot page source):
returns the next component state and the question sent over the network,
if any.  A blank input returns immediately — unchanged state, no
request.  Otherwise the user message and the assistant reply are
appended, the input is cleared and loading ends false. -/
def handleSendMessage (s : ChatState) (now : Nat)
    (o : FetchOutcome (List String)) : ChatState × Option String :=
  if isBlank s.input.data then (s, none)
  else
    let userMsg : Message := ⟨now, .user, s.input, now⟩
    let assistantMsg : Message := ⟨now + 1, .assistant, replyOf o, now⟩
    (⟨s.messages ++ [userMsg, assistantMsg], "", false⟩, some s.input)

/-- One uploaded dataset with its metadata (store context source). -/
structure UploadedDataset where
  name : String
  fileName : String
  uploadedAt : Nat
deriving DecidableEq, Repr

/-- The datasets record of the global store, indexed by category id
(store context source). -/
abbrev Datasets := String → Option UploadedDataset

/-- The store's `uploadDataset` (store context source): functional update
spreading the previous record and overwriting one category. -/
def uploadDataset (prev : Datasets) (category : String)
    (d : UploadedDataset) : Datasets :=
  fun c => if c = category then some d else prev c

/-- The store's `removeDataset` (store context source): functional copy
of the previous record with one category deleted. -/
def removeDataset (prev : Datasets) (category : String) : Datasets :=
  fun c => if c = category then none else prev c

/-- A configured NLU collaborator whose every call times out. -/
def demoNLU : NLU :=
  ⟨true, fun _ => .error .timeout⟩

/-- An unconfigured NLU collaborator. -/
def demoKeywordNLU : NLU :=
  ⟨false, fun _ => .error .unavailable⟩

/-- A healthy environment with no NLU configured. -/
def demoEnv : Env :=
  ⟨demoKeywordNLU, fun _ => true, true, 5, "2025-11-15T10:30:00"⟩

/-- A fully degraded environment: the NLU always times out, no model
artifact is loaded and insight assembly fails. -/
def demoDegradedEnv : Env :=
  ⟨demoNLU, fun _ => false, false, 5, "t"⟩

/-- An empty dataset store. -/
def demoStore : Datasets :=
  fun _ => none

/-- Claim C2: if the NLU collaborator always fails, `IntentResolver.resolve`
returns exactly the intent of `KeywordIntentClassifier.classify` on every
input; the failure is absorbed, never surfaced (the resolver is total into
`Intent`). -/
theorem resolve_fallback_law (nlu : NLU)
    (h : ∀ q, ∃ e, nlu.classify q = .error e) (q : List Char) :
    resolve nlu q = keywordClassify q := by
  unfold resolve
  cases hc : nlu.configured with
  | false => simp
  | true =>
    obtain ⟨e, he⟩ := h q
    simp [he]

/-- Witness for C2: a concrete always-timing-out NLU and a concrete
question on which the resolver agrees with the keyword classifier. -/
theorem resolve_fallback_law_witness :
    (∀ q, ∃ e, demoNLU.classify q = .error e)
    ∧ resolve demoNLU ("hello".data) = keywordClassify ("hello".data) :=
  ⟨fun _ => ⟨.timeout, rfl⟩,
   resolve_fallback_law demoNLU (fun _ => ⟨.timeout, rfl⟩) ("hello".data)⟩

/-- Claim C6: an empty or whitespace-only question is rejected with the
request-level InvalidQuestion error; the rejection does not depend on the
environment (so no classification is consulted) and no ChatResponse is
produced. -/
theorem blank_question_rejected (env env2 : Env) (q : String)
    (h : isBlank q.data = true) :
    chatHandler env q = .error .invalidQuestion
    ∧ chatHandler env2 q = chatHandler env q := by
  constructor <;> simp [chatHandler, h]

/-- Witness for C6: the two-space question is rejected. -/
theorem blank_question_rejected_witness :
    isBlank (("  " : String).data) = true
    ∧ chatHandler demoEnv "  " = .error .invalidQuestion :=
  ⟨by decide, (blank_question_rejected demoEnv demoDegradedEnv "  " (by decide)).1⟩

/-- Insight assembly always yields at least one insight. -/
theorem assembleFromInv_ne_nil (p : ParameterSet) (inv : Invocation) :
    assembleFromInv p inv ≠ [] := by
  cases inv <;> simp [assembleFromInv]

/-- Counterexample to claim C1 as stated: the one-space question is a
non-empty input string, yet the orchestrator returns the request-level
InvalidQuestion error instead of a ChatResponse envelope. -/
theorem chat_total_coverage_cex :
    (" " : String) ≠ "" ∧ chatHandler demoEnv " " = .error .invalidQuestion := by
  constructor
  · decide
  · rfl

/-- Claim C1 (amended: non-empty after trimming): for every question that
is not blank, the orchestrator returns a well-formed ChatResponse — it
echoes the question and the timestamp and carries at least one insight —
whatever the state of the NLU collaborator, the predictors and the
assembler. -/
theorem chat_total_coverage (env : Env) (q : String)
    (h : isBlank q.data = false) :
    ∃ r, chatHandler env q = .ok r
      ∧ r.question = q ∧ r.timestamp = env.now ∧ r.insights ≠ [] := by
  cases ha : env.assemblerOk with
  | false =>
    refine ⟨⟨q, .GENERAL, extract env.currentMonth q.data,
      [apologyInsight], env.now⟩, ?_, rfl, rfl, ?_⟩
    · simp [chatHandler, h, ha]
    · simp
  | true =>
    cases hinv : invocationOf env q with
    | none =>
      refine ⟨⟨q, .GENERAL, extract env.currentMonth q.data,
        [generalHelpInsight], env.now⟩, ?_, rfl, rfl, ?_⟩
      · simp [chatHandler, h, ha, hinv]
      · simp
    | some inv =>
      cases hl : env.modelLoaded (resolve env.nlu q.data) with
      | false =>
        refine ⟨⟨q, resolve env.nlu q.data, extract env.currentMonth q.data,
          [unavailableInsight (resolve env.nlu q.data)], env.now⟩, ?_, rfl, rfl, ?_⟩
        · simp [chatHandler, h, ha, hinv, hl]
        · simp
      | true =>
        refine ⟨⟨q, resolve env.nlu q.data, extract env.currentMonth q.data,
          assembleFromInv (extract env.currentMonth q.data) inv, env.now⟩,
          ?_, rfl, rfl, ?_⟩
        · simp [chatHandler, h, ha, hinv, hl]
        · exact assembleFromInv_ne_nil _ inv

/-- Witness for C1 (amended): a concrete non-blank question in the fully
degraded environment still yields an ok ChatResponse. -/
theorem chat_total_coverage_witness :
    isBlank (("What will Q4 demand look like?" : String).data) = false
    ∧ ∃ r, chatHandler demoDegradedEnv "What will Q4 demand look like?" = .ok r
        ∧ r.question = "What will Q4 demand look like?"
        ∧ r.timestamp = demoDegradedEnv.now ∧ r.insights ≠ [] :=
  ⟨by decide,
   chat_total_coverage demoDegradedEnv "What will Q4 demand look like?" (by decide)⟩

/-- Claim C7: a question resolved to FORECAST with no extracted day count
is dispatched with days defaulted to 90, and a question resolved to
INVENTORY with no extracted percentage is dispatched with surge defaulted
to 0. -/
theorem predictor_defaults (env : Env) (q : String) :
    (resolve env.nlu q.data = .FORECAST →
      (extract env.currentMonth q.data).days = none →
      invocationOf env q = some (.forecast 90))
    ∧ (resolve env.nlu q.data = .INVENTORY →
      (extract env.currentMonth q.data).surge_pct = none →
      invocationOf env q = some (.inventory 0)) := by
  constructor
  · intro hi hd
    unfold invocationOf
    rw [hi]
    simp [validateParams, hd]
  · intro hi hs
    unfold invocationOf
    rw [hi]
    simp [validateParams, hs]

/-- Witness for C7: a concrete FORECAST question with no day count is
dispatched with the 90-day default. -/
theorem predictor_defaults_witness :
    resolve demoEnv.nlu ("forecast trends please".data) = .FORECAST
    ∧ (extract demoEnv.currentMonth ("forecast trends please".data)).days = none
    ∧ invocationOf demoEnv "forecast trends please" = some (.forecast 90) :=
  ⟨by decide, by decide,
   (predictor_defaults demoEnv "forecast trends please").1 (by decide) (by decide)⟩

/-- Claim C8: `askModel` handles every fetch outcome without throwing; a
rejected fetch or a non-ok status yields a fallback reply whose insights
list has exactly one element with the corresponding failure text, and a
successful JSON body is returned as is. -/
theorem askModel_total (β : Type) (f : FetchOutcome β) :
    (f = .rejected →
      askModel f = .fallback ⟨[⟨"Could not reach backend."⟩]⟩)
    ∧ (∀ b, f = .response false b →
      askModel f = .fallback ⟨[⟨"Server error. FastAPI might not be running."⟩]⟩)
    ∧ (∀ b, f = .response true (some b) → askModel f = .parsed b)
    ∧ (∀ r, askModel f = .fallback r → r.insights.length = 1) := by
  refine ⟨?_, ?_, ?_, ?_⟩
  · rintro rfl; rfl
  · rintro b rfl; rfl
  · rintro b rfl; rfl
  · intro r hr
    cases f with
    | rejected => cases hr; rfl
    | response ok body =>
      cases ok with
      | false => cases hr; rfl
      | true =>
        cases body with
        | none => cases hr; rfl
        | some b => cases hr

/-- Witness for C8: the rejected fetch outcome yields the one-insight
could-not-reach fallback. -/
theorem askModel_total_witness :
    (FetchOutcome.rejected : FetchOutcome Nat) = .rejected
    ∧ askModel (FetchOutcome.rejected : FetchOutcome Nat)
      = .fallback ⟨[⟨"Could not reach backend."⟩]⟩ :=
  ⟨rfl, (askModel_total Nat .rejected).1 rfl⟩

/-- Claim C9: on a blank chat input, `handleSendMessage` returns
immediately — no network request is issued and the message history, the
input field and the loading flag are all unchanged. -/
theorem blank_input_no_send (s : ChatState) (now : Nat)
    (o : FetchOutcome (List String)) (h : isBlank s.input.data = true) :
    handleSendMessage s now o = (s, none)
    ∧ (handleSendMessage s now o).1.messages = s.messages
    ∧ (handleSendMessage s now o).1.input = s.input
    ∧ (handleSendMessage s now o).1.loading = s.loading := by
  refine ⟨?_, ?_, ?_, ?_⟩ <;> simp [handleSendMessage, h]

/-- Witness for C9: a three-space input is dropped without a request. -/
theorem blank_input_no_send_witness :
    isBlank (("   " : String).data) = true
    ∧ handleSendMessage ⟨[], "   ", false⟩ 7 .rejected = (⟨[], "   ", false⟩, none) :=
  ⟨by decide,
   (blank_input_no_send ⟨[], "   ", false⟩ 7 .rejected (by decide)).1⟩

/-- Claim C10: `uploadDataset` and `removeDataset` touch only their own
category — every other category reads back unchanged. -/
theorem dataset_ops_frame (st : Datasets) (c c2 : String)
    (d : UploadedDataset) (h : c2 ≠ c) :
    uploadDataset st c d c2 = st c2 ∧ removeDataset st c c2 = st c2 := by
  constructor <;> simp [uploadDataset, removeDataset, h]

/-- Lower-casing leaves a decimal digit unchanged. -/
theorem lowerChar_digit (c : Char) (h : c.isDigit = true) : lowerChar c = c := by
  have hne : ∀ u : Char, u.isDigit = false → ¬(c = u) := by
    intro u hu he
    rw [he] at h
    rw [h] at hu
    cases hu
  unfold lowerChar
  rw [if_neg (hne 'A' (by decide)), if_neg (hne 'B' (by decide)),
    if_neg (hne 'C' (by decide)), if_neg (hne 'D' (by decide)),
    if_neg (hne 'E' (by decide)), if_neg (hne 'F' (by decide)),
    if_neg (hne 'G' (by decide)), if_neg (hne 'H' (by decide)),
    if_neg (hne 'I' (by decide)), if_neg (hne 'J' (by decide)),
    if_neg (hne 'K' (by decide)), if_neg (hne 'L' (by decide)),
    if_neg (hne 'M' (by decide)), if_neg (hne 'N' (by decide)),
    if_neg (hne 'O' (by decide)), if_neg (hne 'P' (by decide)),
    if_neg (hne 'Q' (by decide)), if_neg (hne 'R' (by decide)),
    if_neg (hne 'S' (by decide)), if_neg (hne 'T' (by decide)),
    if_neg (hne 'U' (by decide)), if_neg (hne 'V' (by decide)),
    if_neg (hne 'W' (by decide)), if_neg (hne 'X' (by decide)),
    if_neg (hne 'Y' (by decide)), if_neg (hne 'Z' (by decide))]

/-- The head matcher of an empty pattern always succeeds. -/
theorem isPref_nil (s : List Char) : isPref [] s = true := rfl

/-- A cons list has a last character. -/
theorem lastChar_isSome (s : List Char) (h : s ≠ []) :
    ∃ c, lastChar s = some c := by
  induction s with
  | nil => exact absurd rfl h
  | cons a t ih =>
    cases t with
    | nil => exact ⟨a, rfl⟩
    | cons b t2 => exact ih (by simp)

/-- Dropping the head of a list with a nonempty tail keeps the last
character. -/
theorem lastChar_cons (a : Char) (l : List Char) (h : l ≠ []) :
    lastChar (a :: l) = lastChar l := by
  cases l with
  | nil => exact absurd rfl h
  | cons b t => rfl

/-- The last character of an append with a nonempty right part is the
last character of the right part. -/
theorem lastChar_append (u t : List Char) (h : t ≠ []) :
    lastChar (u ++ t) = lastChar t := by
  induction u with
  | nil => rfl
  | cons a u2 ih =>
    have h2 : u2 ++ t ≠ [] := by
      intro hz
      exact h (List.append_eq_nil.mp hz).2
    rw [List.cons_append, lastChar_cons a (u2 ++ t) h2, ih]

/-- The last character is a member of the list. -/
theorem mem_of_lastChar (s : List Char) (c : Char) (h : lastChar s = some c) :
    c ∈ s := by
  induction s with
  | nil => cases h
  | cons a t ih =>
    cases t with
    | nil =>
      cases h
      exact List.mem_singleton.mpr rfl
    | cons b t2 =>
      exact List.mem_cons_of_mem a (ih h)

/-- takeDigits on an all-digit block followed by anything consumes the
whole block and continues into the remainder. -/
theorem takeDigits_append_of_all (l xs : List Char)
    (h : ∀ c ∈ l, c.isDigit = true) :
    takeDigits (l ++ xs) = (l ++ (takeDigits xs).1, (takeDigits xs).2) := by
  induction l with
  | nil => simp
  | cons c cs ih =>
    have hc : c.isDigit = true := h c (by simp)
    have ih2 := ih fun d hd => h d (List.mem_cons_of_mem c hd)
    simp [takeDigits, hc, ih2]

/-- takeDigits stops immediately at a non-digit head. -/
theorem takeDigits_not_digit (c : Char) (cs : List Char)
    (h : c.isDigit = false) : takeDigits (c :: cs) = ([], c :: cs) := by
  simp [takeDigits, h]

/-- The two parts returned by takeDigits reassemble the input. -/
theorem takeDigits_decomp (s : List Char) :
    (takeDigits s).1 ++ (takeDigits s).2 = s := by
  induction s with
  | nil => rfl
  | cons c cs ih =>
    by_cases hc : c.isDigit = true
    · simp [takeDigits, hc, ih]
    · simp [takeDigits, Bool.eq_false_iff.mpr hc]

/-- Every character of the digit run is a digit. -/
theorem takeDigits_fst_digits (s : List Char) :
    ∀ c ∈ (takeDigits s).1, c.isDigit = true := by
  induction s with
  | nil => simp [takeDigits]
  | cons c cs ih =>
    by_cases hc : c.isDigit = true
    · intro d hd
      simp [takeDigits, hc] at hd
      rcases hd with h | h
      · rw [h]; exact hc
      · exact ih d h
    · intro d hd
      simp [takeDigits, Bool.eq_false_iff.mpr hc] at hd

/-- The remainder after the digit run never starts with a digit. -/
theorem takeDigits_snd_head (s : List Char) :
    ∀ c, (takeDigits s).2.head? = some c → c.isDigit = false := by
  induction s with
  | nil => intro c h; cases h
  | cons a cs ih =>
    by_cases ha : a.isDigit = true
    · intro c h
      apply ih
      simpa [takeDigits, ha] using h
    · intro c h
      have hfa : a.isDigit = false := Bool.eq_false_iff.mpr ha
      rw [takeDigits_not_digit a cs hfa] at h
      cases h
      exact hfa

/-- When the input ends in a non-digit, the remainder after the digit run
is nonempty. -/
theorem takeDigits_snd_ne_nil (s : List Char) (hne : s ≠ [])
    (hl : ∀ c, lastChar s = some c → c.isDigit = false) :
    (takeDigits s).2 ≠ [] := by
  intro h2
  have hd := takeDigits_decomp s
  rw [h2, List.append_nil] at hd
  obtain ⟨c, hc⟩ := lastChar_isSome s hne
  have hmem : c ∈ (takeDigits s).1 := by
    rw [hd]
    exact mem_of_lastChar s c hc
  have : c.isDigit = true := takeDigits_fst_digits s c hmem
  rw [hl c hc] at this
  cases this

/-- A scan over an appended text skips a block on which the head matcher
never fires (at any nonempty suffix of the block, continuing into the
rest). -/
theorem scanFirst_append {α : Type} (f : List Char → Option α)
    (pre rest : List Char)
    (H : ∀ u t, u ++ t = pre → t ≠ [] → f (t ++ rest) = none) :
    scanFirst f (pre ++ rest) = scanFirst f rest := by
  induction pre with
  | nil => rfl
  | cons c cs ih =>
    have h0 : f (c :: (cs ++ rest)) = none := by
      have := H [] (c :: cs) rfl (by simp)
      simpa using this
    have ih2 := ih fun u t hu hne => H (c :: u) t (by simp [hu]) hne
    rw [List.cons_append]
    rw [show scanFirst f (c :: (cs ++ rest))
      = match f (c :: (cs ++ rest)) with
        | some v => some v
        | none => scanFirst f (cs ++ rest) from rfl]
    rw [h0]
    exact ih2

/-- A failed scan means the head matcher fails at every nonempty
suffix. -/
theorem scanFirst_eq_none {α : Type} (f : List Char → Option α)
    (l : List Char) (h : scanFirst f l = none) :
    ∀ u t, u ++ t = l → t ≠ [] → f t = none := by
  induction l with
  | nil =>
    intro u t hu hne
    exact absurd (List.append_eq_nil.mp hu).2 hne
  | cons c cs ih =>
    have h1 : f (c :: cs) = none := by
      cases hf : f (c :: cs) with
      | none => rfl
      | some v =>
        rw [scanFirst, hf] at h
        cases h
    have h2 : scanFirst f cs = none := by
      rw [scanFirst, h1] at h
      exact h
    intro u t hu hne
    cases u with
    | nil =>
      simp at hu
      rw [← hu] at h1
      exact h1
    | cons a u2 =>
      rw [List.cons_append] at hu
      have := List.cons.inj hu
      exact ih h2 u2 t this.2 hne

/-- Witness for C10: uploading under the orders category leaves the
reviews category untouched. -/
theorem dataset_ops_frame_witness :
    ("reviews" : String) ≠ "orders"
    ∧ uploadDataset demoStore "orders" ⟨"Orders", "orders.csv", 3⟩ "reviews"
      = demoStore "reviews" :=
  ⟨by decide,
   (dataset_ops_frame demoStore "orders" "reviews"
     ⟨"Orders", "orders.csv", 3⟩ (by decide)).1⟩

/-- A digit-free pattern that fails at a raw text keeps failing when the
text is extended by a digit and anything after it. -/
theorem isPref_digit_cross_raw (sy r : List Char) (y : Char) (ys : List Char)
    (hy : y.isDigit = true) (hnod : ∀ c ∈ sy, c.isDigit = false)
    (hfail : isPref sy r = false) :
    isPref sy (r ++ y :: ys) = false := by
  induction r generalizing sy with
  | nil =>
    cases sy with
    | nil => rw [isPref_nil] at hfail; cases hfail
    | cons a sy2 =>
      have ha : a.isDigit = false := hnod a (by simp)
      have hb : (a == y) = false := by
        cases hb2 : a == y
        · rfl
        · rw [eq_of_beq hb2] at ha
          rw [hy] at ha
          cases ha
      simp [isPref, hb]
  | cons c r2 ih =>
    cases sy with
    | nil => rw [isPref_nil] at hfail; cases hfail
    | cons a sy2 =>
      cases hb : a == c with
      | false => simp [isPref, hb]
      | true =>
        have hf2 : isPref sy2 r2 = false := by
          simpa [isPref, hb] using hfail
        have := ih sy2 (fun d hd => hnod d (by simp [hd])) hf2
        simp [isPref, hb, this]

/-- A digit-free pattern that fails at a lower-cased text keeps failing
when the text is extended by a digit and anything after it. -/
theorem isPref_digit_cross (sy r : List Char) (y : Char) (ys : List Char)
    (hy : y.isDigit = true) (hnod : ∀ c ∈ sy, c.isDigit = false)
    (hfail : isPref sy (lowerList r) = false) :
    isPref sy (lowerList (r ++ y :: ys)) = false := by
  induction r generalizing sy with
  | nil =>
    cases sy with
    | nil => rw [isPref_nil] at hfail; cases hfail
    | cons a sy2 =>
      have ha : a.isDigit = false := hnod a (by simp)
      have hly : lowerChar y = y := lowerChar_digit y hy
      have hb : (a == lowerChar y) = false := by
        cases hb2 : a == lowerChar y
        · rfl
        · rw [eq_of_beq hb2, hly] at ha
          rw [hy] at ha
          cases ha
      simp [isPref, lowerList, hb]
  | cons c r2 ih =>
    cases sy with
    | nil => rw [isPref_nil] at hfail; cases hfail
    | cons a sy2 =>
      cases hb : a == lowerChar c with
      | false => simp [isPref, lowerList, hb]
      | true =>
        have hf2 : isPref sy2 (lowerList r2) = false := by
          simpa [isPref, lowerList, hb] using hfail
        have := ih sy2 (fun d hd => hnod d (by simp [hd])) hf2
        simp [isPref, lowerList, hb]
        simpa [lowerList] using this

/-- A percentage mark that is absent at a text stays absent when the text
is extended by a digit run: the percent sign cannot appear at the old
head, and neither spelled-out form can complete across the digit. -/
theorem pctMark_cross (r : List Char) (y : Char) (ys : List Char)
    (hy : y.isDigit = true) (hm : pctMark r = false) :
    pctMark (r ++ y :: ys) = false := by
  have hm1 : isPref ['%'] r = false := by
    cases h1 : isPref ['%'] r
    · rfl
    · rw [pctMark, h1] at hm
      simp at hm
  have hm2 : isPref pcntWord (lowerList r) = false := by
    cases h2 : isPref pcntWord (lowerList r)
    · rfl
    · rw [pctMark, h2] at hm
      simp at hm
  have hm3 : isPref (' ' :: pcntWord) (lowerList r) = false := by
    cases h3 : isPref (' ' :: pcntWord) (lowerList r)
    · rfl
    · rw [pctMark, h3] at hm
      simp at hm
  rw [pctMark]
  rw [isPref_digit_cross_raw ['%'] r y ys hy (by decide) hm1]
  rw [isPref_digit_cross pcntWord r y ys hy (by decide) hm2]
  rw [isPref_digit_cross (' ' :: pcntWord) r y ys hy (by decide) hm3]
  rfl

/-- The percentage head matcher, failing at a nonempty block whose last
character is not a digit, also fails when the block is followed by a
digit run: the digit run of the block stays inside the block and the
mark test cannot cross into the appended digits. -/
theorem headPct_append_none (t : List Char) (y : Char) (ys : List Char)
    (hy : y.isDigit = true) (hne : t ≠ []) (ht : headPct t = none)
    (hlast : ∀ c, lastChar t = some c → c.isDigit = false) :
    headPct (t ++ y :: ys) = none := by
  cases t with
  | nil => exact absurd rfl hne
  | cons c t2 =>
    by_cases hc : c.isDigit = true
    · -- the digit run of the block is nonempty and confined to the block
      have hb_ne : (takeDigits (c :: t2)).2 ≠ [] :=
        takeDigits_snd_ne_nil (c :: t2) hne hlast
      obtain ⟨bh, bt, hb⟩ : ∃ bh bt, (takeDigits (c :: t2)).2 = bh :: bt := by
        cases hx : (takeDigits (c :: t2)).2 with
        | nil => exact absurd hx hb_ne
        | cons bh bt => exact ⟨bh, bt, rfl⟩
      have hbh : bh.isDigit = false := by
        apply takeDigits_snd_head (c :: t2)
        rw [hb]
        rfl
      have ha_ne : (takeDigits (c :: t2)).1 ≠ [] := by
        simp [takeDigits, hc]
      have hpm : pctMark (takeDigits (c :: t2)).2 = false := by
        cases hpm2 : pctMark (takeDigits (c :: t2)).2
        · rfl
        · rw [headPct] at ht
          simp only [List.isEmpty_iff] at ht
          rw [if_neg ha_ne, hpm2] at ht
          simp at ht
      -- compute takeDigits on the extended text
      have hsplit : takeDigits ((c :: t2) ++ y :: ys)
          = ((takeDigits (c :: t2)).1, (takeDigits (c :: t2)).2 ++ y :: ys) := by
        have hdec := takeDigits_decomp (c :: t2)
        calc takeDigits ((c :: t2) ++ y :: ys)
            = takeDigits (((takeDigits (c :: t2)).1 ++ (takeDigits (c :: t2)).2)
                ++ y :: ys) := by rw [hdec]
          _ = takeDigits ((takeDigits (c :: t2)).1
                ++ ((takeDigits (c :: t2)).2 ++ y :: ys)) := by
                rw [List.append_assoc]
          _ = ((takeDigits (c :: t2)).1
                ++ (takeDigits ((takeDigits (c :: t2)).2 ++ y :: ys)).1,
               (takeDigits ((takeDigits (c :: t2)).2 ++ y :: ys)).2) :=
                takeDigits_append_of_all _ _ (takeDigits_fst_digits (c :: t2))
          _ = ((takeDigits (c :: t2)).1, (takeDigits (c :: t2)).2 ++ y :: ys) := by
                rw [hb, List.cons_append, takeDigits_not_digit bh _ hbh]
                simp
      rw [headPct]
      simp only [hsplit]
      rw [if_neg (by simpa [List.isEmpty_iff] using ha_ne)]
      rw [pctMark_cross _ y ys hy hpm]
      simp
    · -- non-digit head: the extended scan stops immediately as well
      have hcf : c.isDigit = false := Bool.eq_false_iff.mpr hc
      rw [List.cons_append, headPct, takeDigits_not_digit c _ hcf]
      simp

/-- Claim C3: for every question containing an exact percentage token —
a maximal digit run N immediately followed by the percent sign, with no
earlier percentage mention — `ParameterExtractor.extract` yields
`surge_pct = N / 100`; the text after the token is arbitrary, so later
percentage tokens are ignored (first match wins, no aggregation). -/
theorem surge_pct_first_match (cm : Nat) (pre ds post : List Char)
    (hne : ds ≠ []) (hdig : ∀ c ∈ ds, c.isDigit = true)
    (hpre : scanPct pre = none)
    (hlast : ∀ c, lastChar pre = some c → c.isDigit = false) :
    (extract cm (pre ++ ds ++ '%' :: post)).surge_pct
      = some ((digitsVal ds : ℚ) / 100) := by
  obtain ⟨d0, dtl, rfl⟩ : ∃ d0 dtl, ds = d0 :: dtl := by
    cases ds with
    | nil => exact absurd rfl hne
    | cons d0 dtl => exact ⟨d0, dtl, rfl⟩
  have hd0 : d0.isDigit = true := hdig d0 (by simp)
  have hmain : scanPct (pre ++ d0 :: (dtl ++ '%' :: post))
      = some (digitsVal (d0 :: dtl)) := by
    have hH : ∀ u t, u ++ t = pre → t ≠ [] →
        headPct (t ++ d0 :: (dtl ++ '%' :: post)) = none := by
      intro u t hu htne
      have ht : headPct t = none :=
        scanFirst_eq_none headPct pre hpre u t hu htne
      have hlt : ∀ c, lastChar t = some c → c.isDigit = false := by
        intro c hc
        apply hlast
        rw [← hu, lastChar_append u t htne]
        exact hc
      exact headPct_append_none t d0 (dtl ++ '%' :: post) hd0 htne ht hlt
    rw [scanPct, scanFirst_append headPct pre (d0 :: (dtl ++ '%' :: post)) hH]
    have hfire : headPct (d0 :: (dtl ++ '%' :: post))
        = some (digitsVal (d0 :: dtl)) := by
      have hsplit : takeDigits (d0 :: (dtl ++ '%' :: post))
          = (d0 :: dtl, '%' :: post) := by
        rw [show (d0 :: (dtl ++ '%' :: post) : List Char)
          = (d0 :: dtl) ++ '%' :: post from rfl]
        rw [takeDigits_append_of_all (d0 :: dtl) ('%' :: post) hdig,
          takeDigits_not_digit '%' post (by decide)]
        simp
      rw [headPct]
      simp only [hsplit]
      rw [if_neg (by simp)]
      rw [if_pos (by simp [pctMark, isPref])]
    rw [scanFirst, hfire]
  simp [extract, hmain]

/-- Witness for C3: in a question announcing a twenty percent increase
followed by another percentage, the extractor takes the first token and
yields one fifth. -/
theorem surge_pct_first_match_witness :
    scanPct ("increase by ".data) = none
    ∧ (extract 5 ("increase by ".data ++ ['2', '0'] ++ '%' :: " and 50% more".data)).surge_pct
      = some ((digitsVal ['2', '0'] : ℚ) / 100) :=
  ⟨by decide,
   surge_pct_first_match 5 ("increase by ".data) ['2', '0'] (" and 50% more".data)
     (by decide) (by decide) (by decide)
     (by
       intro c hc
       rw [show lastChar ("increase by ".data) = some ' ' from rfl] at hc
       cases hc
       rfl)⟩

/-- A character denoting a quarter is a digit. -/
theorem qDigit_isDigit (d : Char) (k : Nat) (hd : qDigit d = some k) :
    d.isDigit = true := by
  unfold qDigit at hd
  split_ifs at hd with h1 h2 h3 h4
  · rw [h1]; rfl
  · rw [h2]; rfl
  · rw [h3]; rfl
  · rw [h4]; rfl

/-- A letter lower-casing to q is not a quarter digit. -/
theorem qDigit_of_lower_q (qc : Char) (hq : lowerChar qc = 'q') :
    qDigit qc = none := by
  unfold qDigit
  split_ifs with h1 h2 h3 h4
  · rw [h1] at hq; exact absurd hq (by decide)
  · rw [h2] at hq; exact absurd hq (by decide)
  · rw [h3] at hq; exact absurd hq (by decide)
  · rw [h4] at hq; exact absurd hq (by decide)
  · rfl

/-- A failed quarter head match means both the token form and the
synonym form failed. -/
theorem headQ_none_parts (t : List Char) (h : headQ t = none) :
    headQd t = none ∧ headSyn t = none := by
  cases hq : headQd t with
  | some k => rw [headQ, hq] at h; cases h
  | none =>
    rw [headQ, hq] at h
    exact ⟨rfl, h⟩

/-- A pattern with no trailing q that fails at a lower-cased text keeps
failing when the text is extended by one character lower-casing to q. -/
theorem isPref_snoc_q (sy t : List Char) (qc : Char)
    (hq : lowerChar qc = 'q') (hlast : lastChar sy ≠ some 'q')
    (hfail : isPref sy (lowerList t) = false) :
    isPref sy (lowerList (t ++ [qc])) = false := by
  induction t generalizing sy with
  | nil =>
    cases sy with
    | nil => rw [isPref_nil] at hfail; cases hfail
    | cons a sy2 =>
      cases sy2 with
      | nil =>
        cases hb : a == 'q' with
        | false => simp [lowerList, isPref, hq, hb]
        | true =>
          exfalso
          apply hlast
          rw [eq_of_beq hb]
          rfl
      | cons b sy3 => simp [lowerList, isPref, hq]
  | cons c t2 ih =>
    cases sy with
    | nil => rw [isPref_nil] at hfail; cases hfail
    | cons a sy2 =>
      cases hb : a == lowerChar c with
      | false => simp [lowerList, isPref, hb]
      | true =>
        have hf2 : isPref sy2 (lowerList t2) = false := by
          simpa [lowerList, isPref, hb] using hfail
        have hlast2 : lastChar sy2 ≠ some 'q' := by
          cases sy2 with
          | nil => intro hz; cases hz
          | cons b sy3 =>
            rw [← lastChar_cons a (b :: sy3) (by simp)]
            exact hlast
        have := ih sy2 hlast2 hf2
        simp [lowerList, isPref, hb]
        simpa [lowerList] using this

/-- The quarter head matcher, failing at a nonempty block, also fails
when the block is followed by a quarter token: the token form cannot
complete across the boundary (its second character is a digit, not one
of 1..4 preceded by q inside the block), and no spelled-out synonym can
cross it either (synonyms have no digits and do not end in q). -/
theorem headQ_cross (t : List Char) (qc d : Char) (post : List Char)
    (hq : lowerChar qc = 'q') (hd : d.isDigit = true)
    (ht : headQ t = none) (htne : t ≠ []) :
    headQ (t ++ qc :: d :: post) = none := by
  obtain ⟨htd, hts⟩ := headQ_none_parts t ht
  have hqd : headQd (t ++ qc :: d :: post) = none := by
    cases t with
    | nil => exact absurd rfl htne
    | cons c t2 =>
      cases t2 with
      | nil =>
        rw [show ([c] ++ qc :: d :: post : List Char)
          = c :: qc :: d :: post from rfl]
        rw [headQd, qDigit_of_lower_q qc hq]
        simp
      | cons e t3 =>
        rw [show ((c :: e :: t3) ++ qc :: d :: post : List Char)
          = c :: e :: (t3 ++ qc :: d :: post) from rfl]
        rw [headQd]
        rw [headQd] at htd
        exact htd
  have hcross : ∀ sy : List Char, (∀ x ∈ sy, x.isDigit = false) →
      lastChar sy ≠ some 'q' → isPref sy (lowerList t) = false →
      isPref sy (lowerList (t ++ qc :: d :: post)) = false := by
    intro sy hnod hlq hf
    rw [show (t ++ qc :: d :: post : List Char)
      = (t ++ [qc]) ++ d :: post from by rw [List.append_assoc]; rfl]
    exact isPref_digit_cross sy (t ++ [qc]) d post hd hnod
      (isPref_snoc_q sy t qc hq hlq hf)
  have hsyn : headSyn (t ++ qc :: d :: post) = none := by
    rw [headSyn] at hts
    split_ifs at hts with h1 h2 h3 h4
    have c1 := hcross synQ1 (by decide) (by decide) (Bool.eq_false_iff.mpr h1)
    have c2 := hcross synQ2 (by decide) (by decide) (Bool.eq_false_iff.mpr h2)
    have c3 := hcross synQ3 (by decide) (by decide) (Bool.eq_false_iff.mpr h3)
    have c4 := hcross synQ4 (by decide) (by decide) (Bool.eq_false_iff.mpr h4)
    rw [headSyn]
    simp only [c1, c2, c3, c4]
    simp
  rw [headQ, hqd]
  simpa using hsyn

/-- Counterexample to claim C4 as stated: the question "q1 and Q4"
contains the quarter token Q4, yet months is the first-quarter triple,
because the earlier quarter mention wins — months is not independent of
surrounding text that itself mentions a quarter. -/
theorem months_quarter_cex :
    ("q1 and Q4".data : List Char) = "q1 and ".data ++ 'Q' :: '4' :: []
    ∧ (extract 1 ("q1 and Q4".data)).months = some [1, 2, 3]
    ∧ some [1, 2, 3] ≠ some [10, 11, 12] :=
  ⟨by decide, by decide, by decide⟩

/-- Claim C4 (amended: the quarter token is the first quarter mention):
for every question of the form pre ++ Qk ++ post, case-insensitive in
the letter q, where pre contains no quarter mention, the extractor
yields months equal to the fixed triple of quarter k, whatever the
surrounding text. -/
theorem months_quarter_first (cm : Nat) (pre post : List Char)
    (qc d : Char) (k : Nat) (hq : lowerChar qc = 'q')
    (hd : qDigit d = some k) (hpre : scanQuarter pre = none) :
    (extract cm (pre ++ qc :: d :: post)).months = some (quarterMonths k) := by
  have hdd : d.isDigit = true := qDigit_isDigit d k hd
  have hmain : scanQuarter (pre ++ qc :: d :: post) = some k := by
    have hH : ∀ u t, u ++ t = pre → t ≠ [] →
        headQ (t ++ qc :: d :: post) = none := by
      intro u t hu htne
      exact headQ_cross t qc d post hq hdd
        (scanFirst_eq_none headQ pre hpre u t hu htne) htne
    rw [scanQuarter, scanFirst_append headQ pre (qc :: d :: post) hH]
    have hfire : headQ (qc :: d :: post) = some k := by
      rw [headQ, headQd, hq]
      simp [hd]
    rw [scanFirst, hfire]
  simp [extract, hmain]

/-- Witness for C4 (amended): the readme question about Q4 demand yields
the fourth-quarter months. -/
theorem months_quarter_first_witness :
    lowerChar 'Q' = 'q' ∧ qDigit '4' = some 4
    ∧ scanQuarter ("What will ".data) = none
    ∧ (extract 5 ("What will ".data ++ 'Q' :: '4' :: " demand look like?".data)).months
      = some (quarterMonths 4) :=
  ⟨by decide, by decide, by decide,
   months_quarter_first 5 ("What will ".data) (" demand look like?".data) 'Q' '4' 4
     (by decide) (by decide) (by decide)⟩

/-- Structure of the classifier fold over any candidate list: the result
is GENERAL with count zero or a member with its own positive match
count; its count dominates every candidate; and on positive ties the
result sits no later in the candidate list. -/
theorem classifyAux_spec (q : List Char) (l : List Intent) :
    (((classifyAux q l).1 = .GENERAL ∧ (classifyAux q l).2 = 0)
      ∨ ((classifyAux q l).1 ∈ l ∧ 0 < (classifyAux q l).2
          ∧ (classifyAux q l).2 = matchCount (classifyAux q l).1 q))
    ∧ (∀ j ∈ l, matchCount j q ≤ (classifyAux q l).2)
    ∧ (∀ j ∈ l, 0 < matchCount j q →
        matchCount j q = (classifyAux q l).2 →
        rankAux l (classifyAux q l).1 ≤ rankAux l j) := by
  induction l with
  | nil => exact ⟨Or.inl ⟨rfl, rfl⟩, by simp, by simp⟩
  | cons i rest ih =>
    obtain ⟨ih1, ih2, ih3⟩ := ih
    by_cases hc : 0 < matchCount i q ∧ (classifyAux q rest).2 ≤ matchCount i q
    · have he : classifyAux q (i :: rest) = (i, matchCount i q) := by
        simp [classifyAux, hc]
      refine ⟨Or.inr ⟨?_, ?_, ?_⟩, ?_, ?_⟩
      · rw [he]; exact List.mem_cons_self i rest
      · rw [he]; exact hc.1
      · rw [he]
      · intro j hj
        rw [he]
        rcases List.mem_cons.mp hj with h | h
        · rw [h]
        · exact le_trans (ih2 j h) hc.2
      · intro j hj hpos heq
        rw [he]
        simp [rankAux]
    · have he : classifyAux q (i :: rest) = classifyAux q rest := by
        simp only [classifyAux]
        rw [if_neg hc]
      have hnot : matchCount i q = 0 ∨ matchCount i q < (classifyAux q rest).2 := by
        rcases Nat.eq_zero_or_pos (matchCount i q) with h0 | hp
        · exact Or.inl h0
        · rcases Nat.lt_or_ge (matchCount i q) (classifyAux q rest).2 with hlt | hge
          · exact Or.inr hlt
          · exact absurd ⟨hp, hge⟩ hc
      refine ⟨?_, ?_, ?_⟩
      · rw [he]
        rcases ih1 with h | h
        · exact Or.inl h
        · exact Or.inr ⟨List.mem_cons_of_mem i h.1, h.2.1, h.2.2⟩
      · intro j hj
        rw [he]
        rcases List.mem_cons.mp hj with h | h
        · rw [h]
          rcases hnot with h0 | hlt
          · rw [h0]; exact Nat.zero_le _
          · exact Nat.le_of_lt hlt
        · exact ih2 j h
      · intro j hj hpos heq
        rw [he] at heq ⊢
        rcases List.mem_cons.mp hj with h | h
        · exfalso
          rw [h] at hpos heq
          exact hc ⟨hpos, Nat.le_of_eq heq.symm⟩
        · have hr := ih3 j h hpos heq
          by_cases hbi : (classifyAux q rest).1 = i
          · simp [rankAux, hbi]
          · by_cases hji : j = i
            · exfalso
              rw [hji] at hpos heq
              exact hc ⟨hpos, Nat.le_of_eq heq.symm⟩
            · simp only [rankAux, if_neg hbi, if_neg hji]
              exact Nat.succ_le_succ hr

/-- Claim C5: the keyword classifier returns the intent with the most
keyword matches; on a tie of positive counts it returns the intent
earliest in the fixed priority order FORECAST, INVENTORY, SHIPPING,
SENTIMENT, WAREHOUSE; and it returns GENERAL exactly when no keyword of
any intent matches. -/
theorem keyword_classifier_argmax (q : List Char) :
    (keywordClassify q = .GENERAL ↔ ∀ i ∈ intentOrder, matchCount i q = 0)
    ∧ (∀ i ∈ intentOrder, matchCount i q ≤ matchCount (keywordClassify q) q)
    ∧ (∀ i ∈ intentOrder, 0 < matchCount i q →
        matchCount i q = matchCount (keywordClassify q) q →
        intentRank (keywordClassify q) ≤ intentRank i) := by
  unfold keywordClassify intentRank
  obtain ⟨h1, h2, h3⟩ := classifyAux_spec q intentOrder
  have hzero : matchCount .GENERAL q = 0 := rfl
  refine ⟨⟨?_, ?_⟩, ?_, ?_⟩
  · intro hg i hi
    rcases h1 with ⟨hga, h0⟩ | ⟨hmem, hpos, hcnt⟩
    · have := h2 i hi
      omega
    · rw [hg] at hmem
      exact absurd hmem (by decide)
  · intro hz
    rcases h1 with ⟨hga, h0⟩ | ⟨hmem, hpos, hcnt⟩
    · exact hga
    · exfalso
      rw [hz _ hmem] at hcnt
      omega
  · intro i hi
    rcases h1 with ⟨hga, h0⟩ | ⟨hmem, hpos, hcnt⟩
    · rw [hga, hzero]
      have := h2 i hi
      omega
    · rw [← hcnt]
      exact h2 i hi
  · intro i hi hpos heq
    rcases h1 with ⟨hga, h0⟩ | ⟨hmem, hpos2, hcnt⟩
    · exfalso
      rw [hga, hzero] at heq
      omega
    · exact h3 i hi hpos (by rw [heq, ← hcnt])

/-- Witness for C5: on a question matching one FORECAST keyword and one
INVENTORY keyword, the tie goes to FORECAST, the higher priority. -/
theorem keyword_classifier_argmax_witness :
    Intent.INVENTORY ∈ intentOrder
    ∧ 0 < matchCount .INVENTORY ("forecast stock".data)
    ∧ matchCount .INVENTORY ("forecast stock".data)
      = matchCount (keywordClassify ("forecast stock".data)) ("forecast stock".data)
    ∧ intentRank (keywordClassify ("forecast stock".data))
      ≤ intentRank .INVENTORY :=
  ⟨by decide, by decide, by decide,
   (keyword_classifier_argmax ("forecast stock".data)).2.2 .INVENTORY
     (by decide) (by decide) (by decide)⟩

end Insightopedia
